import Mathlib

/-!
Verification of the FilePurger repository (auto_purge.py and safe_purge.py).

The two Python scripts are shallowly embedded below.  Python strings are
modelled as Lean `String`; `str.lower()` is modelled on the ASCII range by
`lowerChar` / `slower` (all extensions, drive letters and configuration
strings handled by the scripts are ASCII).  Windows paths are modelled by
`PPath`: a drive component (such as "C:", possibly empty), a `rooted` flag
(whether the path begins with a separator after the drive), and the list of
path segments.  Epoch times are modelled as integers (seconds).
-/

namespace FilePurger

/-- ASCII lowercasing of a single character, modelling Python `str.lower`
on the ASCII range (uppercase letters are code points 65-90). -/
def lowerChar (c : Char) : Char :=
  if 65 ≤ c.toNat ∧ c.toNat ≤ 90 then Char.ofNat (c.toNat + 32) else c

/-- Model of Python `str.lower()` (ASCII range). -/
def slower (s : String) : String := ⟨s.data.map lowerChar⟩

/-- A Windows-style path: drive (like "C:", or "" when absent), whether the
path is rooted (begins with a separator right after the drive), and its
segments. -/
structure PPath where
  drive : String
  rooted : Bool
  segs : List String
deriving DecidableEq, Repr

/-- The path of a directory entry `name` inside directory `p`
(Python `os.path.join(root, name)` for a rooted `root`). -/
def childPath (p : PPath) (name : String) : PPath :=
  ⟨p.drive, p.rooted, p.segs ++ [name]⟩

/-- Length of the longest common prefix of two segment lists
(segmentwise comparison used by `os.path.commonpath`). -/
def cplen : List String → List String → Nat
  | a :: as, b :: bs => if a = b then cplen as bs + 1 else 0
  | _, _ => 0

/-- Model of Python `ntpath.commonpath([p, q])`.  Python raises `ValueError`
when the (lowercased) drives differ or when one path is rooted and the other
is not; this is modelled by `none`.  Otherwise the common path keeps the
drive and the original segment spelling of the FIRST argument, truncated to
the longest common prefix of the lowercased segment lists. -/
def commonpath (p q : PPath) : Option PPath :=
  if slower p.drive = slower q.drive ∧ p.rooted = q.rooted then
    some ⟨p.drive, p.rooted,
          p.segs.take (cplen (p.segs.map slower) (q.segs.map slower))⟩
  else none

/-- auto_purge.py `is_under(path, pre)` (lines 63-71): true if `path` is
under `pre`; the drive comparison of `same_drive` is case-insensitive; the
`commonpath` result is compared with `pre` by plain string equality; any
exception (`commonpath` raising) yields `False`. -/
def is_under (path pre : PPath) : Bool :=
  if slower path.drive = slower pre.drive then
    match commonpath path pre with
    | some cp => decide (cp = pre)
    | none => false
  else false

/-- auto_purge.py `should_exclude_dir` (lines 73-77). -/
def should_exclude_dir (root : PPath) (exclude_dirs : List PPath) : Bool :=
  exclude_dirs.any (fun ex => is_under root ex)

/-- safe_purge.py `is_excluded(path)` (lines 68-76), parameterized by the
exclude list: for each entry, `commonpath([abs_path, excl]) == excl`, with
`ValueError` (different drives) skipping the entry. -/
def is_excluded (path : PPath) (exclude_dirs : List PPath) : Bool :=
  exclude_dirs.any (fun excl =>
    match commonpath path excl with
    | some cp => decide (cp = excl)
    | none => false)

/- ------------------------------------------------------------------
String helpers of the scripts: `os.path.splitext` (used for the extension
filter in auto_purge), `pathlib` stem/suffix (used by
`build_quarantine_dest`), and `str.endswith` (used by safe_purge's filter).
------------------------------------------------------------------ -/

/-- Index (from the start) of the last '.' in a character list, if any. -/
def lastDotIdx : List Char → Option Nat
  | [] => none
  | c :: cs =>
    match lastDotIdx cs with
    | some i => some (i + 1)
    | none => if c = '.' then some 0 else none

/-- The extension part of `os.path.splitext` for a plain file name (no
separators): everything from the last dot, unless every character before
that dot is itself a dot (Python's leading-dot rule, under which ".pdf" has
no extension). -/
def splitextExtL (cs : List Char) : List Char :=
  match lastDotIdx cs with
  | none => []
  | some i => if (cs.take i).any (fun c => c != '.') then cs.drop i else []

/-- `os.path.splitext(name)[1]` on strings. -/
def splitextExt (s : String) : String := ⟨splitextExtL s.data⟩

/-- `pathlib.PurePath.suffix` for a file name: the part from the last dot
`i` provided `0 < i < len - 1`. -/
def psuffixL (cs : List Char) : List Char :=
  match lastDotIdx cs with
  | none => []
  | some i => if 0 < i ∧ i < cs.length - 1 then cs.drop i else []

/-- `pathlib.PurePath.suffix` on strings. -/
def psuffix (s : String) : String := ⟨psuffixL s.data⟩

/-- `pathlib.PurePath.stem`: the file name with its suffix removed. -/
def pstem (s : String) : String :=
  ⟨s.data.take (s.data.length - (psuffixL s.data).length)⟩

/-- Python `name.endswith(e)` on strings. -/
def endsWithStr (s e : String) : Bool := e.data.isSuffixOf s.data

/-- Rendering of a `PPath` back to its Python string (`str(src_path)`),
used as the input of the collision digest. -/
def pstr (p : PPath) : String :=
  p.drive ++ (if p.rooted then "\\" else "") ++ "\\".intercalate p.segs

/- ------------------------------------------------------------------
QuarantinePathBuilder (auto_purge.py `build_quarantine_dest`, lines 79-88,
and `short_hash`, lines 57-58) and safe_purge's destination computation
(line 118).  The cryptographic hash function itself (`hashlib.sha256`
hexdigest, stdlib) is a parameter `hashfn` of the model; `short_hash`
truncates its output to 8 characters.
------------------------------------------------------------------ -/

/-- Python `drive.replace(":", "")`: remove every colon character. -/
def stripColons (s : String) : String := ⟨s.data.filter (fun c => c != ':')⟩

/-- auto_purge.py `short_hash` (lines 57-58): the first 8 characters
(`[:8]`) of the hex digest produced by `hashfn`. -/
def short_hash (hashfn : String → String) (s : String) : String :=
  ⟨(hashfn s).data.take 8⟩

/-- auto_purge.py `build_quarantine_dest` (lines 79-88).  `splitdrive`
yields the drive; the drive tag is the drive with ":" removed, or "ROOT"
when that is empty; `relative_to(drive + sep)` succeeds exactly for rooted
paths (else pathlib raises `ValueError`, modelled as `Except.error`); the
destination is `quarantine_root / tag / rel.parent / (stem + "__" + digest
+ ext)`. -/
def build_quarantine_dest (hashfn : String → String) (quarantine_root : PPath)
    (src_path : PPath) : Except String PPath :=
  let drive := src_path.drive
  let replaced := stripColons drive
  let drive_letter := if replaced = "" then "ROOT" else replaced
  if src_path.rooted then
    let rel := src_path.segs
    let base := pstem (src_path.segs.getLastD (""))
    let ext := psuffix (src_path.segs.getLastD (""))
    let sfx := "__" ++ short_hash hashfn (pstr src_path) ++ ext
    Except.ok ⟨quarantine_root.drive, quarantine_root.rooted,
      quarantine_root.segs ++ [drive_letter] ++ rel.dropLast ++ [base ++ sfx]⟩
  else Except.error ("ValueError: src_path is not in the subpath of the drive root")

/-- Modelled from the spec (§4.2): destination =
`quarantineRoot / volumeTag / relativeParentDirs /
(fileStem + "__" + digest + extension)`, for comparison with
`build_quarantine_dest`. -/
def specDestination (quarantine_root : PPath) (src_path : PPath)
    (digest : String) : PPath :=
  let volumeTag :=
    if stripColons src_path.drive = "" then "ROOT"
    else stripColons src_path.drive
  let fileName := src_path.segs.getLastD ("")
  ⟨quarantine_root.drive, quarantine_root.rooted,
   quarantine_root.segs ++ [volumeTag] ++ src_path.segs.dropLast ++
     [pstem fileName ++ "__" ++ digest ++ psuffix fileName]⟩

/-- safe_purge.py destination (line 118):
`os.path.join(QUARANTINE_DIR, os.path.relpath(file_path, drive))` — the
quarantine root followed by the drive-relative segments of the source, with
no volume tag and no digest. -/
def safeDest (quarantine_dir : PPath) (file_path : PPath) : PPath :=
  ⟨quarantine_dir.drive, quarantine_dir.rooted,
   quarantine_dir.segs ++ file_path.segs⟩

/- ------------------------------------------------------------------
Configuration: the FILE_CATEGORIES mapping and the synthesis of the "all"
category.  Python dicts are modelled as association lists in insertion
order; `sorted(set(...))` is modelled as deduplication followed by
insertion sort on the string order.
------------------------------------------------------------------ -/

/-- Strict code-point comparison of character lists, modelling Python's
string `<` used by `sorted`. -/
def strLt : List Char → List Char → Bool
  | [], [] => false
  | [], _ :: _ => true
  | _ :: _, [] => false
  | a :: as, b :: bs =>
    if a.toNat < b.toNat then true
    else if b.toNat < a.toNat then false
    else strLt as bs

/-- Insert a string into a sorted list (ascending). -/
def insertStr (x : String) : List String → List String
  | [] => [x]
  | y :: ys => if strLt y.data x.data then y :: insertStr x ys else x :: y :: ys

/-- Insertion sort on strings, modelling Python `sorted`. -/
def sortStrings : List String → List String
  | [] => []
  | x :: xs => insertStr x (sortStrings xs)

/-- Model of Python `sorted(set(xs))`: distinct elements in ascending
order. -/
def sortedDistinct (xs : List String) : List String := sortStrings xs.dedup

/-- auto_purge.py lines 128-131: the union (as a set) of the lowercased
extensions of ALL values in the FILE_CATEGORIES mapping, sorted. -/
def buildAll (cats : List (String × List String)) : List String :=
  sortedDistinct ((cats.map Prod.snd).flatten.map slower)

/-- Python dict assignment `d["all"] = v`: replace in place when the key is
present, append otherwise. -/
def setAllKey (cats : List (String × List String)) (v : List String) :
    List (String × List String) :=
  if cats.any (fun kv => kv.1 = "all") then
    cats.map (fun kv => if kv.1 = "all" then ("all", v) else kv)
  else cats ++ [("all", v)]

/-- auto_purge.py `load_config_or_exit`, category part (lines 127-131):
`cfg["FILE_CATEGORIES"]["all"] = sorted(all_exts)` where `all_exts` is the
lowercased union over all (!) values of the input mapping. -/
def load_categories (cats : List (String × List String)) :
    List (String × List String) :=
  setAllKey cats (buildAll cats)

/-- Association-list lookup, modelling `d[k]` / `d.get(k, [])`. -/
def categoryGet (cats : List (String × List String)) (name : String) :
    List String :=
  (((cats.find? (fun kv => kv.1 = name)).map Prod.snd)).getD []

/-- safe_purge.py FILE_CATEGORIES before line 30 (lines 23-29). -/
def safeBaseCategories : List (String × List String) :=
  [("documents", [".doc", ".docx", ".xls", ".xlsx", ".ppt", ".pptx", ".pdf",
                  ".csv", ".rtf"]),
   ("videos", [".mp4", ".avi", ".mov", ".mkv", ".wmv", ".m4v", ".3gp",
               ".flv", ".webm"]),
   ("images", [".jpg", ".jpeg", ".png", ".gif", ".bmp", ".tiff", ".webp"]),
   ("archives", [".zip", ".rar", ".7z", ".tar", ".gz"])]

/-- safe_purge.py line 30: `FILE_CATEGORIES["all"] = sorted(set(ext for
exts in FILE_CATEGORIES.values() for ext in exts))` — note: NO lowercasing
here (the hardcoded literals are already lowercase). -/
def safeBuildAllRaw (cats : List (String × List String)) : List String :=
  sortedDistinct (cats.map Prod.snd).flatten

/-- safe_purge.py FILE_CATEGORIES after line 30. -/
def safeFILE_CATEGORIES : List (String × List String) :=
  safeBaseCategories ++ [("all", safeBuildAllRaw safeBaseCategories)]

/-- safe_purge.py `purge_files` lines 94-96: the selected extension list is
the concatenation of `FILE_CATEGORIES.get(cat, [])` over the requested
category names. -/
def collectExtensions (cats : List (String × List String))
    (categories : List String) : List String :=
  (categories.map (categoryGet cats)).flatten

/- ------------------------------------------------------------------
ScanEngine: filesystem trees, per-file classification and the traversal of
auto_purge.py `run_scan` (lines 222-279) and safe_purge.py `purge_files`
(lines 100-127).  `os.path.getmtime` and `shutil.move` interact with a live
filesystem; their outcomes are part of the modelled filesystem state
(`StatRes`, `MoveRes`), matching the scripts' `try/except` structure.
------------------------------------------------------------------ -/

/-- Outcome of `os.path.getmtime` on a file: a modification time, or one of
the exceptions the scripts catch (`FileNotFoundError`, `PermissionError`,
anything else). -/
inductive StatRes where
  | ok (mtime : Int)
  | gone
  | denied
  | err
deriving DecidableEq, Repr

/-- Outcome of `shutil.move` when attempted on a file. -/
inductive MoveRes where
  | ok
  | denied
  | err
deriving DecidableEq, Repr

/-- A file as seen by the traversal. -/
structure FileEnt where
  name : String
  stat : StatRes
  mv : MoveRes
deriving DecidableEq, Repr

mutual
/-- One directory subtree: its name, its files, and its subdirectories. -/
inductive DirTree where
  | node (name : String) (files : List FileEnt) (subs : DirForest)
/-- A list of directory subtrees. -/
inductive DirForest where
  | nil
  | cons (hd : DirTree) (tl : DirForest)
end

/-- The name of a directory node. -/
def DirTree.dirName : DirTree → String
  | .node n _ _ => n

/-- The emitted scan/move events: `[SCAN]`, `[MATCH]`, `[SKIP]`, `[MOVE]`,
`[GONE]`, `[DENIED]`, `[ERROR]`, `[DENIED] move` and `[ERROR] move`. -/
inductive Event where
  | scanDir (dir : PPath)
  | matchEv (fpath : PPath) (age : Int)
  | skipEv (fpath : PPath) (age : Int)
  | moveEv (src : PPath) (dest : PPath) (age : Int)
  | goneEv (fpath : PPath)
  | deniedEv (fpath : PPath)
  | errorEv (fpath : PPath)
  | moveDeniedEv (fpath : PPath)
  | moveErrorEv (fpath : PPath)
deriving DecidableEq, Repr

/-- Every event except `[SCAN]` concerns a single file. -/
def Event.isPerFile : Event → Bool
  | .scanDir _ => false
  | _ => true

/-- The path an event reports (for `[SCAN]` the directory, otherwise the
file). -/
def Event.path : Event → PPath
  | .scanDir d => d
  | .matchEv p _ => p
  | .skipEv p _ => p
  | .moveEv s _ _ => s
  | .goneEv p => p
  | .deniedEv p => p
  | .errorEv p => p
  | .moveDeniedEv p => p
  | .moveErrorEv p => p

/-- The directory containing the path an event reports. -/
def Event.parentDir (e : Event) : PPath :=
  ⟨e.path.drive, e.path.rooted, e.path.segs.dropLast⟩

/-- Events that arise only from an attempted `shutil.move`. -/
def Event.isMoveish : Event → Bool
  | .moveEv _ _ _ => true
  | .moveDeniedEv _ => true
  | .moveErrorEv _ => true
  | _ => false

/-- Is the event a `[MATCH]`? -/
def Event.isMatch : Event → Bool
  | .matchEv _ _ => true
  | _ => false

/-- Is the event a `[SKIP]`? -/
def Event.isSkip : Event → Bool
  | .skipEv _ _ => true
  | _ => false

/-- Is the event a successful `[MOVE]`? -/
def Event.isMove : Event → Bool
  | .moveEv _ _ _ => true
  | _ => false

/-- Configuration consumed by auto_purge's `run_scan`: the selected
extension set (`FILE_CATEGORIES["all"]`), the effective exclude list
(user entries plus quarantine/logs/data directories, pre-absolutized), the
retention period, the dry-run flag, the quarantine root, the digest
function (stdlib sha256 hexdigest) and the scan epoch. -/
structure AutoCfg where
  selected : List String
  excl : List PPath
  retention : Int
  dry_run : Bool
  quarantine : PPath
  hashfn : String → String
  now : Int

/-- auto_purge.py `run_scan`, per-file part (lines 237-279): extension
filter via `os.path.splitext(..).lower()`, stat with `GONE`/`DENIED`/
`ERROR` outcomes, strict comparison `mtime < cutoff_epoch` where
`cutoff_epoch = now - retention_days * 86400` (line 219), `[MATCH]` then —
unless dry_run — destination building and move with `[MOVE]`,
`[DENIED] move` or `[ERROR] move`; otherwise `[SKIP]`. -/
def autoFileEvents (C : AutoCfg) (dir : PPath) (f : FileEnt) : List Event :=
  let fpath := childPath dir f.name
  let ext := slower (splitextExt f.name)
  if C.selected.contains ext = false then []
  else
    match f.stat with
    | .gone => [.goneEv fpath]
    | .denied => [.deniedEv fpath]
    | .err => [.errorEv fpath]
    | .ok mtime =>
      let age := (C.now - mtime).fdiv 86400
      if mtime < C.now - C.retention * 86400 then
        .matchEv fpath age ::
          (if C.dry_run then []
           else
             match build_quarantine_dest C.hashfn C.quarantine fpath with
             | .ok dest =>
               match f.mv with
               | .ok => [.moveEv fpath dest age]
               | .denied => [.moveDeniedEv fpath]
               | .err => [.moveErrorEv fpath]
             | .error _ => [.moveErrorEv fpath])
      else [.skipEv fpath age]

/-- Configuration consumed by safe_purge's `purge_files`: the collected
extension list, the hardcoded EXCLUDE_DIRS, retention days, dry-run flag,
the quarantine directory and the scan time. -/
structure SafeCfg where
  extensions : List String
  excl : List PPath
  retention : Int
  dry_run : Bool
  quarantine : PPath
  now : Int

/-- safe_purge.py `purge_files`, per-file part (lines 106-127): suffix
filter `file.lower().endswith(tuple(extensions))` skipped when
`extensions` is empty; one `try` block around stat, classification
(`age_days >= retention_days` on floored whole days) and the move, whose
generic `except` yields a single error event. -/
def safeFileEvents (C : SafeCfg) (dir : PPath) (f : FileEnt) : List Event :=
  let fpath := childPath dir f.name
  if C.extensions ≠ [] ∧
      C.extensions.any (fun e => endsWithStr (slower f.name) e) = false then []
  else
    match f.stat with
    | .ok mtime =>
      let age := (C.now - mtime).fdiv 86400
      if C.retention ≤ age then
        .matchEv fpath age ::
          (if C.dry_run then []
           else
             match f.mv with
             | .ok => [.moveEv fpath (safeDest C.quarantine fpath) age]
             | _ => [.errorEv fpath])
      else [.skipEv fpath age]
    | _ => [.errorEv fpath]

mutual
/-- auto_purge.py traversal (lines 222-235): `os.walk(topdown)` prunes the
immediate subdirectories matched by `should_exclude_dir`, logs `[SCAN]` for
the current directory, processes its files, then descends into the
surviving subdirectories.  Note the current directory itself is never
re-checked. -/
def autoWalk (C : AutoCfg) (p : PPath) : DirTree → List Event
  | .node _ files subs =>
    Event.scanDir p ::
      ((files.map (autoFileEvents C p)).flatten ++ autoWalkForest C p subs)
/-- Traversal of the pending subdirectory list of auto_purge. -/
def autoWalkForest (C : AutoCfg) (p : PPath) : DirForest → List Event
  | .nil => []
  | .cons t ts =>
    (if should_exclude_dir (childPath p t.dirName) C.excl then []
     else autoWalk C (childPath p t.dirName) t) ++ autoWalkForest C p ts
end

mutual
/-- safe_purge.py traversal (lines 100-104): at every visited directory,
`is_excluded(root)` empties the pending subdirectory list and skips the
directory entirely; otherwise its files are processed and every
subdirectory is visited (each re-checking itself). -/
def safeWalk (C : SafeCfg) (p : PPath) : DirTree → List Event
  | .node _ files subs =>
    if is_excluded p C.excl then []
    else (files.map (safeFileEvents C p)).flatten ++ safeWalkForest C p subs
/-- Traversal of the subdirectory list of safe_purge. -/
def safeWalkForest (C : SafeCfg) (p : PPath) : DirForest → List Event
  | .nil => []
  | .cons t ts =>
    safeWalk C (childPath p t.dirName) t ++ safeWalkForest C p ts
end

/- ------------------------------------------------------------------
QuarantineReclaimer: auto_purge.py `clear_directory` (lines 287-307).
------------------------------------------------------------------ -/

/-- Kind of a directory entry as determined by `os.path.isfile`,
`os.path.islink`, `os.path.isdir`; `other` is an entry for which all three
tests are false (e.g. vanished), which the loop silently skips. -/
inductive EntKind where
  | fileE
  | linkE
  | dirE
  | otherE
deriving DecidableEq, Repr

/-- One immediate entry of the directory being cleared, with the outcome its
deletion would have. -/
structure QEntry where
  name : String
  kind : EntKind
  delOk : Bool
deriving DecidableEq, Repr

/-- Log lines of `clear_directory`. -/
inductive ClrEvent where
  | clearing (d : PPath)
  | failed (item : PPath)
  | finished (d : PPath)
deriving DecidableEq, Repr

/-- Is the event a per-item failure log line? -/
def ClrEvent.isFailed : ClrEvent → Bool
  | .failed _ => true
  | _ => false

/-- The body of `clear_directory`'s per-entry loop (lines 296-305): files
and symlinks are unlinked, directories removed recursively, anything else
ignored; a failing deletion is caught and logged, and the loop continues. -/
def clearEntry (d : PPath) (e : QEntry) : List ClrEvent :=
  match e.kind with
  | .fileE | .linkE | .dirE =>
    if e.delOk then [] else [.failed (childPath d e.name)]
  | .otherE => []

/-- auto_purge.py `clear_directory` (lines 287-307).  When the directory
does not exist the function logs and raises `FileNotFoundError`
(`Except.error`); otherwise it never raises, logging each per-item failure.
The Python function has no `return` statement, hence returns `None`; the
returned value is modelled by the `Option Nat` component, which is always
`none` (a returned failure count would be `some k`). -/
def clear_directory (dirExists : Bool) (d : PPath) (entries : List QEntry) :
    Except String (List ClrEvent × Option Nat) :=
  if dirExists = false then
    Except.error ("FileNotFoundError: Directory not found")
  else
    Except.ok
      (ClrEvent.clearing d ::
        ((entries.map (clearEntry d)).flatten ++ [ClrEvent.finished d]), none)

/-- Does deleting this entry fail (it is a file, link or directory whose
deletion raises)? -/
def QEntry.failsDelete (e : QEntry) : Bool :=
  (match e.kind with
   | .otherE => false
   | _ => true) && !e.delOk

/-- Did the `Except` computation succeed (no exception escaped)? -/
def exceptOk {ε α : Type} : Except ε α → Bool
  | .ok _ => true
  | .error _ => false

/-- The modelled return value of `clear_directory`. -/
def returnedValue (r : Except String (List ClrEvent × Option Nat)) :
    Option Nat :=
  match r with
  | .ok (_, v) => v
  | .error _ => none

/-- Number of per-item failure log lines of a `clear_directory` run. -/
def reclaimFailureCount (r : Except String (List ClrEvent × Option Nat)) :
    Nat :=
  match r with
  | .ok (evs, _) => (evs.filter ClrEvent.isFailed).length
  | .error _ => 0


/- ------------------------------------------------------------------
Theorems.
------------------------------------------------------------------ -/

theorem toNat_ofNat_valid {n : Nat} (h : n.isValidChar) :
    (Char.ofNat n).toNat = n := by
  rw [Char.ofNat, dif_pos h]
  simp [Char.ofNatAux, Char.toNat, UInt32.toNat]

theorem lowerChar_dot_iff (c : Char) : lowerChar c = '.' ↔ c = '.' := by
  constructor
  · intro h
    unfold lowerChar at h
    split at h
    · next hcond =>
      exfalso
      have hv : (c.toNat + 32).isValidChar := Or.inl (by omega)
      have := congrArg Char.toNat h
      rw [toNat_ofNat_valid hv] at this
      have hdot : ('.').toNat = 46 := by decide
      omega
    · exact h
  · intro h
    subst h
    unfold lowerChar
    rw [if_neg (by decide)]

theorem cplen_le_left (a b : List String) : cplen a b ≤ a.length := by
  induction a generalizing b with
  | nil => simp [cplen]
  | cons x xs ih =>
    cases b with
    | nil => simp [cplen]
    | cons y ys =>
      simp only [cplen]
      split
      · simpa [List.length_cons] using Nat.succ_le_succ (ih ys)
      · exact Nat.zero_le _

theorem cplen_append_self (f : String → String) (a t : List String) :
    cplen ((a ++ t).map f) (a.map f) = a.length := by
  induction a with
  | nil => cases t <;> simp [cplen]
  | cons x xs ih =>
    simp only [List.map_append] at ih ⊢
    simp [cplen, ih]

/-- Characterization of `is_under`: `path` is under `pre` exactly when the
drives agree (string-exactly), the rootedness flags agree, and the segment
list of `pre` is a prefix of that of `path`. -/
theorem is_under_iff (path pre : PPath) :
    is_under path pre = true ↔
      path.drive = pre.drive ∧ path.rooted = pre.rooted ∧
        pre.segs <+: path.segs := by
  obtain ⟨pd, pr, ps⟩ := path
  obtain ⟨qd, qr, qs⟩ := pre
  simp only [is_under, commonpath]
  by_cases hdr : slower pd = slower qd
  · by_cases hrt : pr = qr
    · rw [if_pos hdr, if_pos ⟨hdr, hrt⟩]
      simp only [decide_eq_true_eq, PPath.mk.injEq]
      constructor
      · rintro ⟨hd, hr, hs⟩
        exact ⟨hd, hr, hs ▸ List.take_prefix _ _⟩
      · rintro ⟨hd, hr, t, ht⟩
        refine ⟨hd, hr, ?_⟩
        have hk : cplen (ps.map slower) (qs.map slower) = qs.length := by
          rw [← ht]
          exact cplen_append_self slower qs t
        rw [hk, ← ht]
        exact List.take_left qs t
    · rw [if_pos hdr, if_neg (fun hc => hrt hc.2)]
      simp only [Bool.false_eq_true, false_iff]
      rintro ⟨-, hr, -⟩
      exact hrt hr
  · rw [if_neg hdr]
    simp only [Bool.false_eq_true, false_iff]
    rintro ⟨hd, -, -⟩
    exact hdr (by rw [hd])

/-- Characterization of auto_purge's `should_exclude_dir`. -/
theorem should_exclude_dir_iff (root : PPath) (lst : List PPath) :
    should_exclude_dir root lst = true ↔
      ∃ ex ∈ lst, root.drive = ex.drive ∧ root.rooted = ex.rooted ∧
        ex.segs <+: root.segs := by
  simp only [should_exclude_dir, List.any_eq_true]
  constructor
  · rintro ⟨ex, hex, h⟩
    exact ⟨ex, hex, (is_under_iff root ex).mp h⟩
  · rintro ⟨ex, hex, h⟩
    exact ⟨ex, hex, (is_under_iff root ex).mpr h⟩

/-- safe_purge's `is_excluded` has the same per-entry body as auto_purge's
`is_under` up to the redundant `same_drive` test, hence the same
characterization. -/
theorem is_excluded_iff (path : PPath) (lst : List PPath) :
    is_excluded path lst = true ↔
      ∃ ex ∈ lst, path.drive = ex.drive ∧ path.rooted = ex.rooted ∧
        ex.segs <+: path.segs := by
  have hbody : ∀ ex : PPath,
      (match commonpath path ex with
       | some cp => decide (cp = ex)
       | none => false) = is_under path ex := by
    intro ex
    unfold is_under
    by_cases hdr : slower path.drive = slower ex.drive
    · rw [if_pos hdr]
    · rw [if_neg hdr]
      unfold commonpath
      rw [if_neg (fun hc => hdr hc.1)]
  simp only [is_excluded, List.any_eq_true]
  constructor
  · rintro ⟨ex, hex, h⟩
    rw [hbody ex] at h
    exact ⟨ex, hex, (is_under_iff path ex).mp h⟩
  · rintro ⟨ex, hex, h⟩
    exact ⟨ex, hex, (hbody ex) ▸ (is_under_iff path ex).mpr h⟩

/-- `is_under` is transitive along segment inclusion: if `q` lies under `d`
and `d` lies under `ex` then `q` lies under `ex`. -/
theorem is_under_trans {q d ex : PPath} (h1 : is_under q d = true)
    (h2 : is_under d ex = true) : is_under q ex = true := by
  rw [is_under_iff] at h1 h2 ⊢
  obtain ⟨a1, b1, c1⟩ := h1
  obtain ⟨a2, b2, c2⟩ := h2
  exact ⟨a1.trans a2, b1.trans b2, c2.trans c1⟩

theorem mem_insertStr (x y : String) (l : List String) :
    y ∈ insertStr x l ↔ y = x ∨ y ∈ l := by
  induction l with
  | nil => simp [insertStr]
  | cons z zs ih =>
    simp only [insertStr]
    split
    · simp only [List.mem_cons, ih]
      tauto
    · simp [List.mem_cons]

theorem mem_sortStrings (y : String) (l : List String) :
    y ∈ sortStrings l ↔ y ∈ l := by
  induction l with
  | nil => simp [sortStrings]
  | cons z zs ih => simp [sortStrings, mem_insertStr, ih]

theorem mem_sortedDistinct (y : String) (l : List String) :
    y ∈ sortedDistinct l ↔ y ∈ l := by
  simp [sortedDistinct, mem_sortStrings]

/-- Membership in the synthesized "all" list: exactly the lowercasings of
extensions appearing in SOME value of the input mapping (including a
user-supplied "all" entry). -/
theorem mem_buildAll (cats : List (String × List String)) (x : String) :
    x ∈ buildAll cats ↔ ∃ kv ∈ cats, ∃ e ∈ kv.2, slower e = x := by
  simp only [buildAll, mem_sortedDistinct, List.mem_map, List.mem_flatten]
  constructor
  · rintro ⟨e, ⟨vs, ⟨kv, hkv, hsnd⟩, hev⟩, hx⟩
    exact ⟨kv, hkv, e, hsnd ▸ hev, hx⟩
  · rintro ⟨kv, hkv, e, hev, hx⟩
    exact ⟨e, ⟨kv.2, ⟨kv, hkv, rfl⟩, hev⟩, hx⟩

/- ------------------------------------------------------------------
Lifting per-file facts through the traversals.
------------------------------------------------------------------ -/

mutual
/-- If `Q` holds for every `[SCAN]` event and for every event produced on a
file of a directory satisfying `cond`, and `cond` is preserved when
descending into a non-pruned subdirectory, then `Q` holds for every event
of `autoWalk` from a `cond` directory. -/
theorem autoWalk_lift (C : AutoCfg) (Q : Event → Prop) (cond : PPath → Prop)
    (hscan : ∀ p, cond p → Q (.scanDir p))
    (hfile : ∀ p f, cond p → ∀ e ∈ autoFileEvents C p f, Q e)
    (hkeep : ∀ p nm, cond p →
      should_exclude_dir (childPath p nm) C.excl = false →
      cond (childPath p nm)) :
    ∀ (t : DirTree) (p : PPath), cond p → ∀ e ∈ autoWalk C p t, Q e
  | .node _ files subs, p, hp, e, he => by
    simp only [autoWalk, List.mem_cons, List.mem_append, List.mem_flatten,
      List.mem_map] at he
    rcases he with rfl | ⟨⟨l, ⟨f, hf, rfl⟩, hel⟩ | he⟩
    · exact hscan p hp
    · exact hfile p f hp e hel
    · exact autoWalkForest_lift C Q cond hscan hfile hkeep subs p hp e he

/-- Forest version of `autoWalk_lift`. -/
theorem autoWalkForest_lift (C : AutoCfg) (Q : Event → Prop)
    (cond : PPath → Prop)
    (hscan : ∀ p, cond p → Q (.scanDir p))
    (hfile : ∀ p f, cond p → ∀ e ∈ autoFileEvents C p f, Q e)
    (hkeep : ∀ p nm, cond p →
      should_exclude_dir (childPath p nm) C.excl = false →
      cond (childPath p nm)) :
    ∀ (ts : DirForest) (p : PPath), cond p → ∀ e ∈ autoWalkForest C p ts, Q e
  | .nil, p, _, e, he => by simp [autoWalkForest] at he
  | .cons t ts, p, hp, e, he => by
    simp only [autoWalkForest, List.mem_append] at he
    rcases he with he | he
    · split at he
      · simp at he
      · next hex =>
        exact autoWalk_lift C Q cond hscan hfile hkeep t
          (childPath p t.dirName)
          (hkeep p t.dirName hp (by simpa using hex)) e he
    · exact autoWalkForest_lift C Q cond hscan hfile hkeep ts p hp e he
end

mutual
/-- If `Q` holds for every event produced on a file of a non-excluded
directory, it holds for every event of `safeWalk` (safe_purge re-checks
exclusion at every visited directory). -/
theorem safeWalk_lift (C : SafeCfg) (Q : Event → Prop)
    (hfile : ∀ p f, is_excluded p C.excl = false →
      ∀ e ∈ safeFileEvents C p f, Q e) :
    ∀ (t : DirTree) (p : PPath), ∀ e ∈ safeWalk C p t, Q e
  | .node _ files subs, p, e, he => by
    simp only [safeWalk] at he
    split at he
    · simp at he
    · next hex =>
      simp only [List.mem_append, List.mem_flatten, List.mem_map] at he
      rcases he with ⟨l, ⟨f, hf, rfl⟩, hel⟩ | he
      · exact hfile p f (by simpa using hex) e hel
      · exact safeWalkForest_lift C Q hfile subs p e he

/-- Forest version of `safeWalk_lift`. -/
theorem safeWalkForest_lift (C : SafeCfg) (Q : Event → Prop)
    (hfile : ∀ p f, is_excluded p C.excl = false →
      ∀ e ∈ safeFileEvents C p f, Q e) :
    ∀ (ts : DirForest) (p : PPath), ∀ e ∈ safeWalkForest C p ts, Q e
  | .nil, p, e, he => by simp [safeWalkForest] at he
  | .cons t ts, p, e, he => by
    simp only [safeWalkForest, List.mem_append] at he
    rcases he with he | he
    · exact safeWalk_lift C Q hfile t (childPath p t.dirName) e he
    · exact safeWalkForest_lift C Q hfile ts p e he
end

/- ------------------------------------------------------------------
Shape facts about the per-file event lists.
------------------------------------------------------------------ -/

/-- Every event emitted for a file by auto_purge is a per-file event whose
reported path is the file's own path `dir / name`. -/
theorem autoFileEvents_shape (C : AutoCfg) (p : PPath) (f : FileEnt) :
    ∀ e ∈ autoFileEvents C p f,
      e.isPerFile = true ∧ e.path = childPath p f.name := by
  intro e he
  simp only [autoFileEvents] at he
  repeat' split at he
  all_goals simp only [List.mem_cons, List.mem_singleton, List.not_mem_nil,
    or_false] at he
  all_goals first
    | exact he.elim
    | (subst he; exact ⟨rfl, rfl⟩)
    | (rcases he with rfl | rfl <;> exact ⟨rfl, rfl⟩)

/-- Every event emitted for a file by safe_purge is a per-file event whose
reported path is the file's own path `dir / name`. -/
theorem safeFileEvents_shape (C : SafeCfg) (p : PPath) (f : FileEnt) :
    ∀ e ∈ safeFileEvents C p f,
      e.isPerFile = true ∧ e.path = childPath p f.name := by
  intro e he
  simp only [safeFileEvents] at he
  repeat' split at he
  all_goals simp only [List.mem_cons, List.mem_singleton, List.not_mem_nil,
    or_false] at he
  all_goals first
    | exact he.elim
    | (subst he; exact ⟨rfl, rfl⟩)
    | (rcases he with rfl | rfl <;> exact ⟨rfl, rfl⟩)

/-- auto_purge emits a `[MATCH]` for a stat-able file exactly when the
lowercased `splitext` extension is selected and the modification time is
strictly below the cutoff epoch. -/
theorem autoFileEvents_any_match (C : AutoCfg) (p : PPath) (nm : String)
    (mtime : Int) (mv : MoveRes) :
    (autoFileEvents C p ⟨nm, .ok mtime, mv⟩).any Event.isMatch = true ↔
      (C.selected.contains (slower (splitextExt nm)) = true ∧
        mtime < C.now - C.retention * 86400) := by
  simp only [autoFileEvents]
  by_cases hc : C.selected.contains (slower (splitextExt nm)) = false
  · rw [if_pos hc]
    constructor
    · intro h
      exact absurd h (by simp)
    · rintro ⟨h1, -⟩
      rw [hc] at h1
      exact absurd h1 (by simp)
  · rw [if_neg hc]
    rw [Bool.not_eq_false] at hc
    by_cases hm : mtime < C.now - C.retention * 86400
    · rw [if_pos hm]
      constructor
      · intro _
        exact ⟨hc, hm⟩
      · intro _
        simp [Event.isMatch]
    · rw [if_neg hm]
      constructor
      · intro h
        exact absurd h (by simp [Event.isMatch])
      · rintro ⟨-, h⟩
        exact absurd h hm

/-- auto_purge emits a `[SKIP]` for a stat-able file exactly when the
extension is selected and the modification time is at or above the cutoff
epoch. -/
theorem autoFileEvents_any_skip (C : AutoCfg) (p : PPath) (nm : String)
    (mtime : Int) (mv : MoveRes) :
    (autoFileEvents C p ⟨nm, .ok mtime, mv⟩).any Event.isSkip = true ↔
      (C.selected.contains (slower (splitextExt nm)) = true ∧
        ¬(mtime < C.now - C.retention * 86400)) := by
  simp only [autoFileEvents]
  by_cases hc : C.selected.contains (slower (splitextExt nm)) = false
  · rw [if_pos hc]
    constructor
    · intro h
      exact absurd h (by simp)
    · rintro ⟨h1, -⟩
      rw [hc] at h1
      exact absurd h1 (by simp)
  · rw [if_neg hc]
    rw [Bool.not_eq_false] at hc
    by_cases hm : mtime < C.now - C.retention * 86400
    · rw [if_pos hm]
      constructor
      · intro h
        exfalso
        rw [List.any_eq_true] at h
        obtain ⟨e, he, hse⟩ := h
        simp only [List.mem_cons] at he
        rcases he with rfl | he
        · simp [Event.isSkip] at hse
        · split at he
          · simp at he
          · split at he
            · split at he <;>
                (simp only [List.mem_singleton] at he; subst he;
                 simp [Event.isSkip] at hse)
            · simp only [List.mem_singleton] at he
              subst he
              simp [Event.isSkip] at hse
      · rintro ⟨-, h⟩
        exact absurd hm h
    · rw [if_neg hm]
      constructor
      · intro _
        exact ⟨hc, hm⟩
      · intro _
        simp [Event.isSkip]

/-- safe_purge emits a `[MATCH]` for a stat-able file exactly when the file
passes the `endswith` filter (or the extension list is empty) and the
floored whole-day age reaches `retention_days`. -/
theorem safeFileEvents_any_match (C : SafeCfg) (p : PPath) (nm : String)
    (mtime : Int) (mv : MoveRes) :
    (safeFileEvents C p ⟨nm, .ok mtime, mv⟩).any Event.isMatch = true ↔
      ((C.extensions = [] ∨
        C.extensions.any (fun e => endsWithStr (slower nm) e) = true) ∧
        C.retention ≤ (C.now - mtime).fdiv 86400) := by
  simp only [safeFileEvents]
  by_cases hf : C.extensions ≠ [] ∧
      C.extensions.any (fun e => endsWithStr (slower nm) e) = false
  · rw [if_pos hf]
    constructor
    · intro h
      exact absurd h (by simp)
    · rintro ⟨h1, -⟩
      rcases h1 with h1 | h1
      · exact absurd h1 hf.1
      · rw [hf.2] at h1
        exact absurd h1 (by simp)
  · rw [if_neg hf]
    push_neg at hf
    by_cases hm : C.retention ≤ (C.now - mtime).fdiv 86400
    · rw [if_pos hm]
      constructor
      · intro _
        refine ⟨?_, hm⟩
        by_cases hne : C.extensions = []
        · exact Or.inl hne
        · exact Or.inr (by simpa using hf hne)
      · intro _
        simp [Event.isMatch]
    · rw [if_neg hm]
      constructor
      · intro h
        exact absurd h (by simp [Event.isMatch])
      · rintro ⟨-, h⟩
        exact absurd h hm

/-- safe_purge's qualification test `age_days >= retention_days` on the
floored whole-day age is equivalent to `mtime <= now - retention * 86400`
(at-or-below the cutoff, not strictly below). -/
theorem retention_le_age_iff (r now mtime : Int) :
    r ≤ (now - mtime).fdiv 86400 ↔ mtime ≤ now - r * 86400 := by
  rw [Int.fdiv_eq_ediv _ (by norm_num : (0:Int) ≤ 86400)]
  rw [Int.le_ediv_iff_mul_le (by norm_num : (0:Int) < 86400)]
  omega

/- ------------------------------------------------------------------
Claim theorems.
------------------------------------------------------------------ -/

/-- C1 (amended): in auto_purge (`run_scan`), a stat-able file whose
lowercased extension is in the selected set is MATCHed iff
`mtime < now - retentionDays*86400` strictly; in particular a file modified
exactly `retentionDays*86400` seconds before the cutoff clock reading is
reported as SKIP.  In safe_purge (`purge_files`), however, qualification is
`floor((now - mtime)/86400) >= retentionDays`, which is equivalent to
`mtime <= now - retentionDays*86400`; a file modified exactly
`retentionDays*86400` seconds ago is therefore MATCHed, not SKIPped, so the
strict-inequality claim holds for auto_purge only. -/
theorem claim_c1 :
    (∀ (C : AutoCfg) (p : PPath) (nm : String) (mtime : Int) (mv : MoveRes),
      C.selected.contains (slower (splitextExt nm)) = true →
      ((autoFileEvents C p ⟨nm, .ok mtime, mv⟩).any Event.isMatch = true ↔
        mtime < C.now - C.retention * 86400)) ∧
    (∀ (C : AutoCfg) (p : PPath) (nm : String) (mv : MoveRes),
      C.selected.contains (slower (splitextExt nm)) = true →
      (autoFileEvents C p ⟨nm, .ok (C.now - C.retention * 86400), mv⟩).any
        Event.isSkip = true) ∧
    (∀ (C : SafeCfg) (p : PPath) (nm : String) (mtime : Int) (mv : MoveRes),
      (C.extensions = [] ∨
        C.extensions.any (fun e => endsWithStr (slower nm) e) = true) →
      ((safeFileEvents C p ⟨nm, .ok mtime, mv⟩).any Event.isMatch = true ↔
        mtime ≤ C.now - C.retention * 86400)) := by
  refine ⟨?_, ?_, ?_⟩
  · intro C p nm mtime mv hsel
    rw [autoFileEvents_any_match]
    exact ⟨fun h => h.2, fun h => ⟨hsel, h⟩⟩
  · intro C p nm mv hsel
    rw [autoFileEvents_any_skip]
    exact ⟨hsel, by omega⟩
  · intro C p nm mtime mv hfil
    rw [safeFileEvents_any_match]
    constructor
    · rintro ⟨-, h⟩
      exact (retention_le_age_iff _ _ _).mp h
    · intro h
      exact ⟨hfil, (retention_le_age_iff _ _ _).mpr h⟩

/-- C1 witness: concrete boundary input for the auto_purge SKIP conjunct —
retention 1 day, `now = 86400`, file modified at epoch 0 (exactly 86400
seconds old), selected extension ".pdf". -/
theorem claim_c1_witness :
    (autoFileEvents
        { selected := [".pdf"], excl := [], retention := 1, dry_run := true,
          quarantine := ⟨"C:", true, ["FilePurger", "Quarantine"]⟩,
          hashfn := fun _ => "0000000000", now := 86400 }
        ⟨"C:", true, ["Users"]⟩ ⟨"a.pdf", .ok 0, .ok⟩).any Event.isSkip =
      true :=
  claim_c1.2.1 _ _ ("a.pdf") .ok (by decide)

/-- C1 counterexample: safe_purge emits a `[MATCH]` for a ".pdf" file
modified exactly `retentionDays*86400 = 86400` seconds before `now`
(retention 1, now 86400, mtime 0), although the claimed strict inequality
`mtime < now - retentionDays*86400` fails there and the claim demands a
SKIP. -/
theorem claim_c1_counterexample :
    (safeFileEvents
        { extensions := [".pdf"], excl := [], retention := 1, dry_run := true,
          quarantine := ⟨"C:", true, ["FilePurger", "Quarantine"]⟩,
          now := 86400 }
        ⟨"C:", true, ["Users"]⟩ ⟨"a.pdf", .ok 0, .ok⟩).any Event.isMatch =
        true ∧
      ¬((0 : Int) < 86400 - 1 * 86400) :=
  ⟨by decide, by decide⟩

/-- C2 (confirmed): in both scripts a candidate directory is classified as
excluded exactly when some exclude entry lies on the same volume (equal
drive) with the same rootedness and its segment list is a path-segment
wise initial part of the candidate's segments; a sibling that merely shares
a string prefix ("C:\\Program Files (x86)" against entry
"C:\\Program Files") is not excluded; and comparison against an entry on a
different volume always returns false. -/
theorem claim_c2 :
    (∀ (root : PPath) (lst : List PPath),
      should_exclude_dir root lst = true ↔
        ∃ ex ∈ lst, root.drive = ex.drive ∧ root.rooted = ex.rooted ∧
          ex.segs <+: root.segs) ∧
    (∀ (path : PPath) (lst : List PPath),
      is_excluded path lst = true ↔
        ∃ ex ∈ lst, path.drive = ex.drive ∧ path.rooted = ex.rooted ∧
          ex.segs <+: path.segs) ∧
    (∀ (path ex : PPath), slower path.drive ≠ slower ex.drive →
      is_under path ex = false) ∧
    (should_exclude_dir ⟨"C:", true, ["Program Files (x86)"]⟩
        [⟨"C:", true, ["Program Files"]⟩] = false ∧
      is_excluded ⟨"C:", true, ["Program Files (x86)"]⟩
        [⟨"C:", true, ["Program Files"]⟩] = false) := by
  refine ⟨should_exclude_dir_iff, is_excluded_iff, ?_, by decide, by decide⟩
  intro path ex h
  unfold is_under
  rw [if_neg h]

/-- C2 witness: the cross-volume conjunct applied at a concrete pair —
candidate on drive D:, exclude entry on drive C:. -/
theorem claim_c2_witness :
    is_under ⟨"D:", true, ["data"]⟩ ⟨"C:", true, []⟩ = false :=
  claim_c2.2.2.1 ⟨"D:", true, ["data"]⟩ ⟨"C:", true, []⟩ (by decide)

/-- The parent directory of a path produced by `childPath` is the original
directory. -/
theorem parentDir_eq_of_childPath (p : PPath) (nm : String) :
    (⟨(childPath p nm).drive, (childPath p nm).rooted,
      (childPath p nm).segs.dropLast⟩ : PPath) = p := by
  simp [childPath]

/-- Exclusion is hereditary downward: if an excluded `D` is an ancestor of
(or equal to) a directory `q`, then `q` is itself matched by the exclude
list. -/
theorem excluded_of_under_excluded {q D : PPath} {lst : List PPath}
    (hD : should_exclude_dir D lst = true) (hq : is_under q D = true) :
    should_exclude_dir q lst = true := by
  rw [should_exclude_dir_iff] at hD ⊢
  obtain ⟨ex, hex, h⟩ := hD
  have := is_under_trans hq ((is_under_iff D ex).mpr h)
  exact ⟨ex, hex, (is_under_iff q ex).mp this⟩

/-- Same downward heredity for safe_purge's `is_excluded`. -/
theorem is_excluded_of_under_excluded {q D : PPath} {lst : List PPath}
    (hD : is_excluded D lst = true) (hq : is_under q D = true) :
    is_excluded q lst = true := by
  rw [is_excluded_iff] at hD ⊢
  obtain ⟨ex, hex, h⟩ := hD
  have := is_under_trans hq ((is_under_iff D ex).mpr h)
  exact ⟨ex, hex, (is_under_iff q ex).mp this⟩

/-- C3 (amended): safe_purge never emits a per-file event for a file lying
in or under an excluded directory `D`, unconditionally (it re-checks every
visited directory).  auto_purge guarantees the same provided the traversal
root itself is not excluded; because pruning only examines immediate
subdirectories, a scanned volume root that is itself excluded (an exclude
entry equal to, or an ancestor of, the drive root) still has its direct
files scanned and reported — see the counterexample. -/
theorem claim_c3 :
    (∀ (C : SafeCfg) (t : DirTree) (p : PPath) (D : PPath),
      is_excluded D C.excl = true →
      (safeWalk C p t).all
        (fun e => !e.isPerFile || !(is_under e.parentDir D)) = true) ∧
    (∀ (C : AutoCfg) (t : DirTree) (p : PPath) (D : PPath),
      should_exclude_dir p C.excl = false →
      should_exclude_dir D C.excl = true →
      (autoWalk C p t).all
        (fun e => !e.isPerFile || !(is_under e.parentDir D)) = true) := by
  constructor
  · intro C t p D hD
    rw [List.all_eq_true]
    intro e he
    have h := safeWalk_lift C
      (fun e => e.isPerFile = true → is_under e.parentDir D = false)
      (fun q f hq e' he' _ => by
        obtain ⟨-, hpath⟩ := safeFileEvents_shape C q f e' he'
        have hpd : e'.parentDir = q := by
          rw [Event.parentDir, hpath]
          exact parentDir_eq_of_childPath q f.name
        rw [hpd]
        by_contra hcon
        rw [Bool.not_eq_false] at hcon
        rw [is_excluded_of_under_excluded hD hcon] at hq
        exact absurd hq (by simp)) t p e he
    cases hpf : e.isPerFile
    · simp [hpf]
    · simp [hpf, h hpf]
  · intro C t p D hp hD
    rw [List.all_eq_true]
    intro e he
    have h := autoWalk_lift C
      (fun e => e.isPerFile = true → is_under e.parentDir D = false)
      (fun q => should_exclude_dir q C.excl = false)
      (fun q _ hpf => absurd hpf (by simp [Event.isPerFile]))
      (fun q f hq e' he' _ => by
        obtain ⟨-, hpath⟩ := autoFileEvents_shape C q f e' he'
        have hpd : e'.parentDir = q := by
          rw [Event.parentDir, hpath]
          exact parentDir_eq_of_childPath q f.name
        rw [hpd]
        by_contra hcon
        rw [Bool.not_eq_false] at hcon
        have hq2 : should_exclude_dir q C.excl = false := hq
        rw [excluded_of_under_excluded hD hcon] at hq2
        exact absurd hq2 (by simp))
      (fun q nm _ hkept => hkept)
      t p hp e he
    cases hpf : e.isPerFile
    · simp [hpf]
    · simp [hpf, h hpf]

/-- C3 witness: a concrete non-excluded root with an excluded subdirectory
"C:\\Windows"; the auto_purge conjunct applied there. -/
theorem claim_c3_witness :
    (autoWalk
        { selected := [".pdf"], excl := [⟨"C:", true, ["Windows"]⟩],
          retention := 0, dry_run := true,
          quarantine := ⟨"C:", true, ["FilePurger", "Quarantine"]⟩,
          hashfn := fun _ => "0000000000", now := 10 }
        ⟨"C:", true, []⟩
        (.node ("C:")
          [⟨"a.pdf", .ok 0, .ok⟩]
          (.cons (.node ("Windows") [⟨"sys.pdf", .ok 0, .ok⟩] .nil) .nil))).all
      (fun e => !e.isPerFile || !(is_under e.parentDir
        ⟨"C:", true, ["Windows"]⟩)) = true :=
  claim_c3.2
    { selected := [".pdf"], excl := [⟨"C:", true, ["Windows"]⟩],
      retention := 0, dry_run := true,
      quarantine := ⟨"C:", true, ["FilePurger", "Quarantine"]⟩,
      hashfn := fun _ => "0000000000", now := 10 }
    (.node ("C:")
      [⟨"a.pdf", .ok 0, .ok⟩]
      (.cons (.node ("Windows") [⟨"sys.pdf", .ok 0, .ok⟩] .nil) .nil))
    ⟨"C:", true, []⟩ ⟨"C:", true, ["Windows"]⟩
    (by decide) (by decide)

/-- C3 counterexample: with the drive root "C:\\" itself on the exclude
list, auto_purge's scan still emits a per-file (MATCH) event for a file
directly inside that excluded directory, because pruning only ever
inspects immediate subdirectories and the traversal root is never
checked. -/
theorem claim_c3_counterexample :
    should_exclude_dir ⟨"C:", true, []⟩ [⟨"C:", true, []⟩] = true ∧
    (autoWalk
        { selected := [".pdf"], excl := [⟨"C:", true, []⟩],
          retention := 0, dry_run := true,
          quarantine := ⟨"C:", true, ["FilePurger", "Quarantine"]⟩,
          hashfn := fun _ => "0000000000", now := 10 }
        ⟨"C:", true, []⟩
        (.node ("C:") [⟨"old.pdf", .ok 0, .ok⟩] .nil)).any
      (fun e => e.isPerFile && is_under e.parentDir ⟨"C:", true, []⟩) =
      true :=
  ⟨by decide, by decide⟩

/-- Under dry run, auto_purge's per-file processing emits no move-phase
event. -/
theorem autoFileEvents_no_move_of_dry (C : AutoCfg) (hdry : C.dry_run = true)
    (p : PPath) (f : FileEnt) :
    ∀ e ∈ autoFileEvents C p f, e.isMoveish = false := by
  intro e he
  simp only [autoFileEvents] at he
  repeat' split at he
  all_goals simp only [List.mem_cons, List.mem_singleton, List.not_mem_nil,
    or_false] at he
  all_goals first
    | exact he.elim
    | (subst he; rfl)
    | simp_all [Event.isMoveish]

/-- Under dry run, safe_purge's per-file processing emits no `[MOVE]`
event. -/
theorem safeFileEvents_no_move_of_dry (C : SafeCfg) (hdry : C.dry_run = true)
    (p : PPath) (f : FileEnt) :
    ∀ e ∈ safeFileEvents C p f, e.isMoveish = false := by
  intro e he
  simp only [safeFileEvents] at he
  repeat' split at he
  all_goals simp only [List.mem_cons, List.mem_singleton, List.not_mem_nil,
    or_false] at he
  all_goals first
    | exact he.elim
    | (subst he; rfl)
    | simp_all [Event.isMoveish]

/-- C5 (confirmed): with `dry_run = true`, a qualifying stat-able file
produces exactly one `[MATCH]` event and nothing else in both scripts, and
the whole traversal emits no move-phase event at all (`[MOVE]`,
`[DENIED] move` or `[ERROR] move`), so no move is attempted and the
source files stay in place — the model mutates the filesystem only at a
successful `shutil.move`, which is reported by a `[MOVE]` event. -/
theorem claim_c5 :
    (∀ (C : AutoCfg) (p : PPath) (nm : String) (mtime : Int) (mv : MoveRes),
      C.dry_run = true →
      C.selected.contains (slower (splitextExt nm)) = true →
      mtime < C.now - C.retention * 86400 →
      autoFileEvents C p ⟨nm, .ok mtime, mv⟩ =
        [.matchEv (childPath p nm) ((C.now - mtime).fdiv 86400)]) ∧
    (∀ (C : AutoCfg) (p : PPath) (t : DirTree), C.dry_run = true →
      (autoWalk C p t).all (fun e => !e.isMoveish) = true) ∧
    (∀ (C : SafeCfg) (p : PPath) (nm : String) (mtime : Int) (mv : MoveRes),
      C.dry_run = true →
      (C.extensions = [] ∨
        C.extensions.any (fun e => endsWithStr (slower nm) e) = true) →
      C.retention ≤ (C.now - mtime).fdiv 86400 →
      safeFileEvents C p ⟨nm, .ok mtime, mv⟩ =
        [.matchEv (childPath p nm) ((C.now - mtime).fdiv 86400)]) ∧
    (∀ (C : SafeCfg) (p : PPath) (t : DirTree), C.dry_run = true →
      (safeWalk C p t).all (fun e => !e.isMoveish) = true) := by
  refine ⟨?_, ?_, ?_, ?_⟩
  · intro C p nm mtime mv hdry hsel hm
    simp only [autoFileEvents]
    rw [if_neg (by rw [hsel]; simp), if_pos hm, if_pos hdry]
  · intro C p t hdry
    rw [List.all_eq_true]
    intro e he
    have h := autoWalk_lift C (fun e => e.isMoveish = false) (fun _ => True)
      (fun _ _ => rfl)
      (fun q f _ => autoFileEvents_no_move_of_dry C hdry q f)
      (fun _ _ _ _ => trivial)
      t p trivial e he
    simp [h]
  · intro C p nm mtime mv hdry hfil hm
    simp only [safeFileEvents]
    rw [if_neg ?hfc, if_pos hm, if_pos hdry]
    case hfc =>
      rintro ⟨hne, hany⟩
      rcases hfil with h | h
      · exact hne h
      · rw [hany] at h
        exact absurd h (by simp)
  · intro C p t hdry
    rw [List.all_eq_true]
    intro e he
    have h := safeWalk_lift C (fun e => e.isMoveish = false)
      (fun q f _ => safeFileEvents_no_move_of_dry C hdry q f)
      t p e he
    simp [h]

/-- C5 witness: a concrete dry-run qualifying file produces exactly one
`[MATCH]`. -/
theorem claim_c5_witness :
    autoFileEvents
        { selected := [".pdf"], excl := [], retention := 1, dry_run := true,
          quarantine := ⟨"C:", true, ["FilePurger", "Quarantine"]⟩,
          hashfn := fun _ => "0000000000", now := 100000 }
        ⟨"C:", true, ["Users"]⟩ ⟨"a.pdf", .ok 0, .ok⟩ =
      [.matchEv ⟨"C:", true, ["Users", "a.pdf"]⟩ 1] :=
  claim_c5.1 _ ⟨"C:", true, ["Users"]⟩ "a.pdf" 0 .ok rfl (by decide)
    (by decide)

/-- C6 (amended): auto_purge emits no event at all for a file whose
lowercased `splitext` extension is outside the selected set.  safe_purge
instead filters by `file.lower().endswith(tuple(extensions))` on the whole
name: it emits no event when the extension list is non-empty and no
configured extension is a suffix of the lowercased name, but (a) a file
such as ".pdf" whose Python extension is "" (hence outside any configured
set) still passes the suffix test and produces events, and (b) an empty
extension list disables the filter entirely. -/
theorem claim_c6 :
    (∀ (C : AutoCfg) (p : PPath) (f : FileEnt),
      C.selected.contains (slower (splitextExt f.name)) = false →
      autoFileEvents C p f = []) ∧
    (∀ (C : SafeCfg) (p : PPath) (f : FileEnt),
      C.extensions ≠ [] →
      C.extensions.any (fun e => endsWithStr (slower f.name) e) = false →
      safeFileEvents C p f = []) := by
  constructor
  · intro C p f hsel
    simp only [autoFileEvents]
    rw [if_pos hsel]
  · intro C p f hne hany
    simp only [safeFileEvents]
    rw [if_pos ⟨hne, hany⟩]

/-- C6 witness: a ".txt" file is silently skipped by auto_purge when only
".pdf" is selected. -/
theorem claim_c6_witness :
    autoFileEvents
        { selected := [".pdf"], excl := [], retention := 1, dry_run := true,
          quarantine := ⟨"C:", true, ["FilePurger", "Quarantine"]⟩,
          hashfn := fun _ => "0000000000", now := 100000 }
        ⟨"C:", true, ["Users"]⟩ ⟨"notes.txt", .ok 0, .ok⟩ = [] :=
  claim_c6.1 _ ⟨"C:", true, ["Users"]⟩ ⟨"notes.txt", .ok 0, .ok⟩ (by decide)

/-- C6 counterexample: the file named ".pdf" has extension "" under
`os.path.splitext` (and under the spec's ScanCandidate model), which is not
in the selected set `{".pdf"}` — yet safe_purge's suffix filter passes it
and a `[SKIP]` event is emitted, so the file is not silent. -/
theorem claim_c6_counterexample :
    splitextExt (".pdf") = "" ∧
    ([".pdf"] : List String).contains (slower (splitextExt (".pdf"))) =
      false ∧
    safeFileEvents
        { extensions := [".pdf"], excl := [], retention := 1,
          dry_run := true,
          quarantine := ⟨"C:", true, ["FilePurger", "Quarantine"]⟩,
          now := 0 }
        ⟨"C:", true, ["Users"]⟩ ⟨".pdf", .ok 0, .ok⟩ ≠ [] :=
  ⟨by decide, by decide, by decide⟩

/-- C4 (amended): auto_purge's `build_quarantine_dest` realizes exactly the
specified mapping `quarantineRoot / volumeTag / relativeParentDirs /
(fileStem + "__" + digest + extension)` with `digest = short_hash(str(src))`
(the first 8 hex characters of the sha256 digest of the full original source
path string), for every rooted source path; the mapping is a pure function
of `(quarantineRoot, sourcePath)`, hence deterministic across runs.
safe_purge, however, computes `QUARANTINE_DIR / relpath(src, drive)` with no
volume tag and no digest — see the counterexample. -/
theorem claim_c4 :
    ∀ (hashfn : String → String) (qr src : PPath), src.rooted = true →
      build_quarantine_dest hashfn qr src =
        Except.ok (specDestination qr src (short_hash hashfn (pstr src))) := by
  intro hashfn qr src hr
  simp only [build_quarantine_dest, specDestination]
  rw [if_pos hr]
  simp [String.append_assoc]

/-- C4 witness: the builder applied to a concrete rooted path. -/
theorem claim_c4_witness :
    build_quarantine_dest (fun _ => "0123456789abcdef")
        ⟨"C:", true, ["FilePurger", "Quarantine"]⟩
        ⟨"C:", true, ["Users", "bob", "report.pdf"]⟩ =
      Except.ok (specDestination ⟨"C:", true, ["FilePurger", "Quarantine"]⟩
        ⟨"C:", true, ["Users", "bob", "report.pdf"]⟩
        (short_hash (fun _ => "0123456789abcdef")
          (pstr ⟨"C:", true, ["Users", "bob", "report.pdf"]⟩))) :=
  claim_c4 (fun _ => "0123456789abcdef")
    ⟨"C:", true, ["FilePurger", "Quarantine"]⟩
    ⟨"C:", true, ["Users", "bob", "report.pdf"]⟩ rfl

/-- C4 counterexample: for the source `C:\\Users\\bob\\a.pdf` and
quarantine root `C:\\FilePurger\\Quarantine`, safe_purge's destination
(`QUARANTINE_DIR / relpath(src, drive)`) differs from the claimed format
`quarantineRoot / volumeTag / relativeParents / (stem__digest+ext)` for
EVERY possible digest string: the claimed form has six segments under the
root, the safe_purge destination only five (no volume tag, undecorated
file name). -/
theorem claim_c4_counterexample :
    ¬ ∃ digest : String,
        safeDest ⟨"C:", true, ["FilePurger", "Quarantine"]⟩
            ⟨"C:", true, ["Users", "bob", "a.pdf"]⟩ =
          specDestination ⟨"C:", true, ["FilePurger", "Quarantine"]⟩
            ⟨"C:", true, ["Users", "bob", "a.pdf"]⟩ digest := by
  rintro ⟨d, h⟩
  have hlen := congrArg (fun q : PPath => q.segs.length) h
  simp [safeDest, specDestination] at hlen

/-- Per-entry failure logs of the clearing loop, counted: one `failed` line
per deletable entry whose removal raises. -/
theorem clearEntry_failed_count (d : PPath) (es : List QEntry) :
    (((es.map (clearEntry d)).flatten).filter ClrEvent.isFailed).length =
      (es.filter QEntry.failsDelete).length := by
  induction es with
  | nil => rfl
  | cons e es ih =>
    simp only [List.map_cons, List.flatten_cons, List.filter_append,
      List.length_append, ih, List.filter_cons]
    cases hk : e.kind <;> cases hd : e.delOk <;>
      simp [clearEntry, QEntry.failsDelete, hk, hd, ClrEvent.isFailed] <;>
      omega

/-- C7 (amended): `clear_directory` raises `FileNotFoundError` immediately
when the target directory does not exist; otherwise each entry's deletion
failure is caught and logged and processing continues — the call never
raises for an individual-item failure and logs exactly one failure line per
failing entry.  However the function returns `None` (it has no `return`
statement): no aggregate failure count is returned. -/
theorem claim_c7 :
    (∀ (d : PPath) (entries : List QEntry),
      clear_directory false d entries =
        Except.error ("FileNotFoundError: Directory not found")) ∧
    (∀ (d : PPath) (entries : List QEntry),
      exceptOk (clear_directory true d entries) = true) ∧
    (∀ (d : PPath) (entries : List QEntry),
      reclaimFailureCount (clear_directory true d entries) =
        (entries.filter QEntry.failsDelete).length) ∧
    (∀ (d : PPath) (entries : List QEntry),
      returnedValue (clear_directory true d entries) = none) := by
  refine ⟨fun d es => rfl, fun d es => rfl, ?_, fun d es => rfl⟩
  intro d es
  have hres : clear_directory true d es =
      Except.ok (ClrEvent.clearing d ::
        ((es.map (clearEntry d)).flatten ++ [ClrEvent.finished d]), none) :=
    rfl
  rw [hres]
  simp only [reclaimFailureCount, List.filter_cons, List.filter_append,
    ClrEvent.isFailed, Bool.false_eq_true, if_false, List.filter_nil,
    List.append_nil]
  exact clearEntry_failed_count d es

/-- C7 counterexample: at a concrete directory holding one locked file, the
run logs exactly one failure but returns `None`, not the aggregate failure
count 1 that the claim requires. -/
theorem claim_c7_counterexample :
    reclaimFailureCount
        (clear_directory true ⟨"C:", true, ["FilePurger", "Quarantine"]⟩
          [⟨"locked.pdf", .fileE, false⟩]) = 1 ∧
    returnedValue
        (clear_directory true ⟨"C:", true, ["FilePurger", "Quarantine"]⟩
          [⟨"locked.pdf", .fileE, false⟩]) = none ∧
    (none : Option Nat) ≠ some 1 :=
  ⟨by decide, by decide, by decide⟩

/-- After the dict assignment `d["all"] = v` the "all" key holds exactly
`v`, whether or not the key was already present. -/
theorem categoryGet_setAllKey (cats : List (String × List String))
    (v : List String) : categoryGet (setAllKey cats v) "all" = v := by
  unfold setAllKey
  split
  · next h =>
    induction cats with
    | nil => simp at h
    | cons kv kvs ih =>
      by_cases hk : kv.1 = "all"
      · simp only [List.map_cons, if_pos hk]
        simp [categoryGet]
      · simp only [List.any_cons, Bool.or_eq_true] at h
        rcases h with h | h
        · exact absurd (by simpa using h) hk
        · simp only [List.map_cons, if_neg hk]
          rw [categoryGet, List.find?_cons_of_neg _ (by simpa using hk)]
          exact ih h
  · next h =>
    induction cats with
    | nil => simp [categoryGet]
    | cons kv kvs ih =>
      simp only [List.any_cons, Bool.or_eq_true, not_or] at h
      obtain ⟨h1, h2⟩ := h
      have hk : ¬ kv.1 = "all" := by simpa using h1
      simp only [List.cons_append]
      rw [categoryGet, List.find?_cons_of_neg _ (by simpa using hk)]
      exact ih h2

/-- C8 (amended): `load_config_or_exit` derives and overwrites the "all"
category, so after loading it always equals the sorted lowercased union of
the extensions of ALL entries of the input mapping — including a
user-supplied "all" entry, whose extensions therefore leak into the union:
the claim's "union of all OTHER categories" only holds when the
user-supplied "all" adds nothing new.  safe_purge's hardcoded mapping has
no prior "all" key and its literals are lowercase, so there the derived
"all" does equal the union of the lowercased extensions of the other
categories. -/
theorem claim_c8 :
    (∀ (cats : List (String × List String)) (x : String),
      x ∈ buildAll cats ↔ ∃ kv ∈ cats, ∃ e ∈ kv.2, slower e = x) ∧
    (∀ cats : List (String × List String),
      categoryGet (load_categories cats) "all" = buildAll cats) ∧
    (safeBuildAllRaw safeBaseCategories = buildAll safeBaseCategories ∧
      categoryGet safeFILE_CATEGORIES ("all") = buildAll safeBaseCategories ∧
      safeBaseCategories.all (fun kv => decide (kv.1 ≠ "all")) = true) := by
  refine ⟨mem_buildAll, ?_, by decide, by decide, by decide⟩
  intro cats
  exact categoryGet_setAllKey cats (buildAll cats)

/-- C8 counterexample: with a configuration that supplies its own
`"all": [".evil"]` alongside `"docs": [".pdf"]`, the loaded "all" category
contains ".evil", which is not the lowercasing of any extension of the
other (non-"all") categories — the loaded "all" is NOT the union of the
other categories. -/
theorem claim_c8_counterexample :
    ".evil" ∈ categoryGet
        (load_categories [("docs", [".pdf"]), ("all", [".evil"])]) "all" ∧
    (∀ kv ∈ ([("docs", [".pdf"]), ("all", [".evil"])] :
        List (String × List String)), kv.1 ≠ "all" →
      ∀ e ∈ kv.2, slower e ≠ ".evil") :=
  ⟨by decide, by decide⟩

/-- C9 (amended): `build_quarantine_dest` raises (`ValueError` from
`relative_to`) exactly for source paths that are not rooted; a rooted path
with NO volume component does not fail — it succeeds and files under it are
mapped under the "ROOT" volume tag.  The claim's "fails when the path has
no volume component" does not hold. -/
theorem claim_c9 :
    (∀ (hashfn : String → String) (qr src : PPath),
      exceptOk (build_quarantine_dest hashfn qr src) = src.rooted) ∧
    (∀ (hashfn : String → String) (qr src : PPath),
      src.rooted = true → src.drive = "" →
      build_quarantine_dest hashfn qr src =
        Except.ok ⟨qr.drive, qr.rooted,
          qr.segs ++ ["ROOT"] ++ src.segs.dropLast ++
            [pstem (src.segs.getLastD ("")) ++
              ("__" ++ short_hash hashfn (pstr src) ++
                psuffix (src.segs.getLastD ("")))]⟩) := by
  constructor
  · intro hashfn qr src
    simp only [build_quarantine_dest]
    cases hr : src.rooted
    · rw [if_neg (by simp [hr])]
      rfl
    · rw [if_pos rfl]
      rfl
  · intro hashfn qr src hr hd
    simp only [build_quarantine_dest, hd]
    rw [if_pos hr]
    rfl

/-- C9 witness: a rooted, drive-less source path at which the builder
succeeds with the "ROOT" tag. -/
theorem claim_c9_witness :
    build_quarantine_dest (fun _ => "0123456789abcdef")
        ⟨"C:", true, ["FilePurger", "Quarantine"]⟩
        ⟨"", true, ["tmp", "a.pdf"]⟩ =
      Except.ok ⟨"C:", true,
        ["FilePurger", "Quarantine", "ROOT", "tmp",
         "a__01234567.pdf"]⟩ := by
  have h := claim_c9.2 (fun _ => "0123456789abcdef")
    ⟨"C:", true, ["FilePurger", "Quarantine"]⟩
    ⟨"", true, ["tmp", "a.pdf"]⟩ rfl rfl
  rw [h]
  exact congrArg Except.ok (by decide)

/-- C9 counterexample: the source path `\\tmp\\a.pdf` (rooted but with no
volume component) does NOT make `build_quarantine_dest` fail — it returns a
destination, contradicting the claim that every volume-less source fails
with a path error. -/
theorem claim_c9_counterexample :
    (⟨"", true, ["tmp", "a.pdf"]⟩ : PPath).drive = "" ∧
    exceptOk (build_quarantine_dest (fun _ => "0123456789abcdef")
        ⟨"C:", true, ["FilePurger", "Quarantine"]⟩
        ⟨"", true, ["tmp", "a.pdf"]⟩) = true :=
  ⟨rfl, by decide⟩

/-- Characters with equal lowercasings are dots together. -/
theorem lowerChar_dot_congr {c c' : Char} (h : lowerChar c' = lowerChar c) :
    (c' = '.') ↔ (c = '.') := by
  constructor
  · intro hc
    rw [← lowerChar_dot_iff, ← h, lowerChar_dot_iff]
    exact hc
  · intro hc
    rw [← lowerChar_dot_iff, h, lowerChar_dot_iff]
    exact hc

/-- `lastDotIdx` only depends on the positions of dots, which lowercasing
preserves. -/
theorem lastDotIdx_lower_congr :
    ∀ (cs cs' : List Char), cs'.map lowerChar = cs.map lowerChar →
      lastDotIdx cs' = lastDotIdx cs
  | [], [], _ => rfl
  | [], _ :: _, h => by simp at h
  | _ :: _, [], h => by simp at h
  | c :: cs, c' :: cs', h => by
    simp only [List.map_cons, List.cons.injEq] at h
    obtain ⟨h1, h2⟩ := h
    simp only [lastDotIdx]
    rw [lastDotIdx_lower_congr cs cs' h2]
    cases lastDotIdx cs with
    | some i => rfl
    | none =>
      by_cases hc : c' = '.'
      · rw [if_pos hc, if_pos ((lowerChar_dot_congr h1).mp hc)]
      · rw [if_neg hc, if_neg (fun hcc =>
          hc ((lowerChar_dot_congr h1).mpr hcc))]

/-- The dot test `any (c != '.')` is invariant under lowercasing. -/
theorem anyNeDot_lower_congr :
    ∀ (cs cs' : List Char), cs'.map lowerChar = cs.map lowerChar →
      cs'.any (fun c => c != '.') = cs.any (fun c => c != '.')
  | [], [], _ => rfl
  | [], _ :: _, h => by simp at h
  | _ :: _, [], h => by simp at h
  | c :: cs, c' :: cs', h => by
    simp only [List.map_cons, List.cons.injEq] at h
    obtain ⟨h1, h2⟩ := h
    simp only [List.any_cons]
    rw [anyNeDot_lower_congr cs cs' h2]
    have hdd := lowerChar_dot_congr h1
    by_cases hc : c = '.'
    · rw [hc, (by rwa [← hdd] at hc : c' = '.')]
    · have hc' : ¬ c' = '.' := fun hcc => hc (hdd.mp hcc)
      have hb : (c' != '.') = (c != '.') := by
        show (!(c' == '.')) = (!(c == '.'))
        rw [beq_eq_false_iff_ne.mpr hc', beq_eq_false_iff_ne.mpr hc]
      rw [hb]

/-- `os.path.splitext` commutes with lowercasing of the file name (up to
lowercasing the result): names with equal lowercasings yield extensions
with equal lowercasings. -/
theorem splitextExtL_lower_congr (cs cs' : List Char)
    (h : cs'.map lowerChar = cs.map lowerChar) :
    (splitextExtL cs').map lowerChar = (splitextExtL cs).map lowerChar := by
  simp only [splitextExtL]
  rw [lastDotIdx_lower_congr cs cs' h]
  cases hld : lastDotIdx cs with
  | none => rfl
  | some i =>
    have htake : (cs'.take i).map lowerChar = (cs.take i).map lowerChar := by
      rw [List.map_take, List.map_take, h]
    show ((if ((cs'.take i).any fun c => c != '.') = true then cs'.drop i
        else []).map lowerChar) =
      ((if ((cs.take i).any fun c => c != '.') = true then cs.drop i
        else []).map lowerChar)
    rw [anyNeDot_lower_congr (cs.take i) (cs'.take i) htake]
    by_cases hcnd : (cs.take i).any (fun c => c != '.') = true
    · rw [if_pos hcnd, if_pos hcnd, List.map_drop, List.map_drop, h]
    · rw [if_neg hcnd, if_neg hcnd]

/-- String-level corollary: lowercased extensions agree whenever lowercased
names agree. -/
theorem slower_splitextExt_congr (n n' : String) (h : slower n' = slower n) :
    slower (splitextExt n') = slower (splitextExt n) := by
  have hd : n'.data.map lowerChar = n.data.map lowerChar :=
    congrArg String.data h
  exact congrArg String.mk (splitextExtL_lower_congr n.data n'.data hd)

/-- C10 (confirmed): the extension filter is case-insensitive end to end.
In auto_purge, the synthesized "all" union is invariant under changing the
letter case of the configured extension strings, and the per-file test
(membership of the lowercased `splitext` extension) is invariant under
changing the letter case of the file name.  In safe_purge, the filter
lowercases the whole file name before the `endswith` test, so it is
likewise invariant in the file name's case; its configured extension
literals are all already lowercase (so the lowercased synthesis is a no-op
there). -/
theorem claim_c10 :
    (∀ (cats : List (String × List String)) (g : String → String),
      (∀ s, slower (g s) = slower s) →
      buildAll (cats.map (fun kv => (kv.1, kv.2.map g))) = buildAll cats) ∧
    (∀ (sel : List String) (n n' : String), slower n' = slower n →
      sel.contains (slower (splitextExt n')) =
        sel.contains (slower (splitextExt n))) ∧
    (∀ (exts : List String) (n n' : String), slower n' = slower n →
      exts.any (fun e => endsWithStr (slower n') e) =
        exts.any (fun e => endsWithStr (slower n) e)) ∧
    (safeBaseCategories.all (fun kv => kv.2.all (fun e =>
      decide (slower e = e))) = true) := by
  refine ⟨?_, ?_, ?_, by decide⟩
  · intro cats g hg
    unfold buildAll
    congr 1
    induction cats with
    | nil => rfl
    | cons kv kvs ih =>
      simp only [List.map_cons, List.flatten_cons, List.map_append, ih]
      congr 1
      rw [List.map_map]
      exact List.map_congr_left (fun e _ => hg e)
  · intro sel n n' h
    rw [slower_splitextExt_congr n n' h]
  · intro exts n n' h
    rw [h]

/-- C10 witness: the "all" synthesis applied to a pointwise case-variant of
a concrete configuration. -/
theorem claim_c10_witness :
    buildAll ([("docs", [".PDF", ".txt"])].map
      (fun kv => (kv.1, kv.2.map (fun s => s)))) =
      buildAll [("docs", [".PDF", ".txt"])] :=
  claim_c10.1 [("docs", [".PDF", ".txt"])] (fun s => s) (fun _ => rfl)

end FilePurger
